import Mathlib

/-!
Verification of the vibe-jockey song-queue system against its specification.

The development shallowly embeds the parts of the repository that the claims
concern:

* the pgvector similarity search function `match_embeddings`
  (SQL, `CREATE FUNCTION match_embeddings` with `exclude_song_id` parameter),
  modelled over exact reals with the table as a list of rows and the
  `ORDER BY <=> ... LIMIT` pipeline as a stable insertion sort followed by
  `take`;
* the `song_embeddings` upsert keyed on `id` (Supabase `.upsert` with
  `onConflict: 'id'` in `frontend/lib/inngest.ts`);
* the mock queue endpoint `frontend/app/api/song-queue/route.ts`
  (`POST`), whose `Math.random()` draws are modelled as an explicit stream
  `rng : ℕ → ℕ` consumed one value per draw;
* the proxy endpoint variant that clamps trait values with
  `Math.max(0, Math.min(1, v))` before forwarding to the backend;
* the player page's slider clamp `Math.max(1, Math.min(100, value))` and the
  normalization `0.1 + (v - 1) * (0.9 / 99)`.

JavaScript numbers are modelled as exact rationals, SQL floats as exact reals.
-/

deriving instance DecidableEq for Except

namespace VibeJockey

/-! ## The mock queue route (frontend/app/api/song-queue/route.ts) -/

/-- A song of the mock catalog in `route.ts`: id, title, artist and a record of
named integer trait values (`traits: { energy: _, mood: _, tempo: _ }`). -/
structure MockSong where
  id : String
  title : String
  artist : String
  traits : List (String × Int)
deriving DecidableEq

/-- The literal `mockSongs` array of `route.ts`. -/
def mockSongs : List MockSong :=
  [⟨"song1", "Sunlight", "DJ Summer", [("energy", 4), ("mood", 3), ("tempo", 4)]⟩,
   ⟨"song2", "Midnight Drive", "Night Owl", [("energy", 2), ("mood", -1), ("tempo", 2)]⟩,
   ⟨"song3", "Cosmic Wave", "Stella Nova", [("energy", 3), ("mood", 4), ("tempo", 3)]⟩,
   ⟨"song4", "Deep Blue", "Ocean Floor", [("energy", -2), ("mood", -3), ("tempo", -2)]⟩,
   ⟨"song5", "Electric Sky", "Thunderbolt", [("energy", 5), ("mood", 2), ("tempo", 5)]⟩,
   ⟨"song6", "Gentle Rain", "Cloud Walker", [("energy", -1), ("mood", 1), ("tempo", -3)]⟩,
   ⟨"song7", "Urban Jungle", "City Beat", [("energy", 3), ("mood", -2), ("tempo", 4)]⟩,
   ⟨"song8", "Tranquil Mind", "Zen Master", [("energy", -4), ("mood", 2), ("tempo", -4)]⟩]

/-- A requested trait adjustment (`{ name, value }` in the request body). -/
structure TraitReq where
  name : String
  value : ℚ
deriving DecidableEq

/-- One entry of the produced queue (`QueueSong` in `route.ts`): the selected
song's id and the trait values reported for it. -/
structure QueueSong where
  songID : String
  traitValues : List (String × Int)
deriving DecidableEq

/-- The `traits.forEach` body of `route.ts`: for each requested trait, use the
selected song's trait value if present, otherwise draw
`Math.floor(Math.random() * 11) - 5`.  The random stream `rng` is consumed at
position `k`; the returned counter is the next unconsumed position. -/
def traitVals (rng : ℕ → ℕ) (s : MockSong) : List TraitReq → ℕ → List (String × Int) × ℕ
  | [], k => ([], k)
  | t :: rest, k =>
    match s.traits.lookup t.name with
    | some v =>
      let p := traitVals rng s rest k
      ((t.name, v) :: p.1, p.2)
    | none =>
      let p := traitVals rng s rest (k + 1)
      ((t.name, ((rng k : Int) % 11) - 5) :: p.1, p.2)

/-- The selection loop of `route.ts`: repeatedly draw
`Math.floor(Math.random() * availableSongs.length)`, append the drawn song
to the queue, splice it out of the pool, and break when the pool is empty.
Indexing an empty pool in JavaScript yields `undefined` and the subsequent
field access throws, which the route's `catch` turns into an error response;
that path is the `.error` case. -/
def queueLoop (rng : ℕ → ℕ) (traits : List TraitReq) :
    ℕ → List MockSong → ℕ → List QueueSong → Except String (List QueueSong)
  | 0, _, _, acc => .ok acc.reverse
  | n + 1, avail, k, acc =>
    if h : avail.length = 0 then .error "Failed to generate song queue"
    else
      let idx := rng k % avail.length
      let s := avail.get ⟨idx, Nat.mod_lt _ (Nat.pos_of_ne_zero h)⟩
      let p := traitVals rng s traits (k + 1)
      let acc' := ⟨s.id, p.1⟩ :: acc
      let avail' := avail.eraseIdx idx
      if avail'.length = 0 then .ok acc'.reverse
      else queueLoop rng traits n avail' p.2 acc'

/-- The `POST` handler of `frontend/app/api/song-queue/route.ts`.  Validation
rejects a falsy `currentSong` (empty string) or falsy `transitionLength` (zero);
a present `traits` array is always truthy in JavaScript, so it alone cannot
fail validation and is taken as given here.  The queue length is capped at 5
(`Math.min(transitionLength, 5)`), the pool is the mock catalog minus the
current song, and the loop above fills the queue. -/
def songQueuePOST (currentSong : String) (traits : List TraitReq)
    (transitionLength : Int) (rng : ℕ → ℕ) : Except String (List QueueSong) :=
  if currentSong = "" ∨ transitionLength = 0 then .error "Missing required parameters"
  else
    let queueLength := min transitionLength 5
    let availableSongs := mockSongs.filter (fun s => s.id != currentSong)
    queueLoop rng traits queueLength.toNat availableSongs 0 []

/-! ## The proxy route's trait clamping (part of the song-queue proxy `POST`,
also `generateSongQueue` in `frontend/lib/inngest.ts`) -/

/-- `Math.max(0, Math.min(1, trait.value))` applied to each trait before the
request is forwarded to the backend. -/
def clampTrait (v : ℚ) : ℚ := max 0 (min 1 v)

/-- A trait as forwarded to the backend (`{ name, value }` after clamping). -/
structure BackendTrait where
  name : String
  value : ℚ
deriving DecidableEq

/-- The transformed request body (`backendRequest` in the proxy route). -/
structure BackendRequest where
  current_song_id : String
  traits : List BackendTrait
  transition_length : Int
deriving DecidableEq

/-- Construction of `backendRequest` from the incoming request data. -/
def buildBackendRequest (currentSong : String) (traits : List TraitReq)
    (transitionLength : Int) : BackendRequest :=
  ⟨currentSong, traits.map (fun t => ⟨t.name, clampTrait t.value⟩), transitionLength⟩

/-- The validation and transformation stage of the proxy `POST` (the eventual
`fetch` to the backend is external I/O and out of scope): a falsy
`currentSong` or `transitionLength` yields the 400 error, otherwise the
clamped backend request is produced. -/
def songQueueProxyPOST (currentSong : String) (traits : List TraitReq)
    (transitionLength : Int) : Except String BackendRequest :=
  if currentSong = "" ∨ transitionLength = 0 then .error "Missing required parameters"
  else .ok (buildBackendRequest currentSong traits transitionLength)

/-! ## The player page's trait sliders (player page `generateQueue` and
`handleTraitChange`) -/

/-- `handleTraitChange`: slider input is clamped with
`Math.max(1, Math.min(100, value))`; the range input emits integers. -/
def handleTraitChange (v : Int) : Int := max 1 (min 100 v)

/-- The normalization in `generateQueue`:
`0.1 + (trait.value - 1) * (0.9 / 99)`, mapping 1..100 to 0.1..1.0. -/
def normalizeTrait (v : ℚ) : ℚ := 1 / 10 + (v - 1) * (9 / 10 / 99)

/-! ## The embedding store (SQL: table `song_embeddings`, function
`match_embeddings`)

Vectors are lists of exact reals; pgvector's `a <=> b` cosine-distance
operator is `1 - (a ⬝ b) / (‖a‖ ‖b‖)`.  The table is a list of rows (a fixed
snapshot); `WHERE` is `filter`, `ORDER BY` on the distance key is a stable
insertion sort, `LIMIT` is `take`.  The SQL `ORDER BY` names only the distance
key, so the relative order of equal-distance rows is not constrained by the
query; the model resolves that freedom by row order (stability). -/

/-- A row of `song_embeddings` as read by `match_embeddings` (the unused
`user_id` and timestamp columns are omitted). -/
structure SongRow where
  id : String
  embedding : List ℝ
  title : String
  artist : String

/-- A row of the `RETURNS TABLE (id, title, artist, similarity)` result. -/
structure MatchResult where
  id : String
  title : String
  artist : String
  similarity : ℝ

/-- Dot product of two real vectors (componentwise product, summed). -/
def dot (a b : List ℝ) : ℝ := (List.zipWith (fun x y => x * y) a b).sum

/-- Euclidean norm of a vector. -/
noncomputable def vnorm (a : List ℝ) : ℝ := Real.sqrt (dot a a)

/-- pgvector's cosine distance `a <=> b`, namely `1 - cos θ`. -/
noncomputable def cosineDistance (a b : List ℝ) : ℝ :=
  1 - dot a b / (vnorm a * vnorm b)

/-- The `WHERE` clause of `match_embeddings`:
`(exclude_song_id IS NULL OR id != exclude_song_id) AND
 1 - (embedding <=> query_embedding) > match_threshold`. -/
def matchCond (q : List ℝ) (t : ℝ) (ex : Option String) (r : SongRow) : Prop :=
  (ex = none ∨ some r.id ≠ ex) ∧ t < 1 - cosineDistance r.embedding q

noncomputable instance (q : List ℝ) (t : ℝ) (ex : Option String) :
    DecidablePred (matchCond q t ex) := fun r =>
  inferInstanceAs (Decidable (_ ∧ _))

/-- The `ORDER BY song_embeddings.embedding <=> query_embedding` key order. -/
def distLE (q : List ℝ) (r s : SongRow) : Prop :=
  cosineDistance r.embedding q ≤ cosineDistance s.embedding q

noncomputable instance (q : List ℝ) : DecidableRel (distLE q) := fun a b =>
  inferInstanceAs (Decidable (_ ≤ _))

instance (q : List ℝ) : IsTotal SongRow (distLE q) :=
  ⟨fun a b => le_total _ _⟩

instance (q : List ℝ) : IsTrans SongRow (distLE q) :=
  ⟨fun _ _ _ hab hbc => le_trans hab hbc⟩

/-- The rows surviving the `WHERE` clause, in table order. -/
noncomputable def eligibleRows (store : List SongRow) (q : List ℝ) (t : ℝ)
    (ex : Option String) : List SongRow :=
  store.filter (fun r => decide (matchCond q t ex r))

/-- The eligible rows after `ORDER BY` (ascending cosine distance to the
query, equal keys kept in table order). -/
noncomputable def sortedRows (store : List SongRow) (q : List ℝ) (t : ℝ)
    (ex : Option String) : List SongRow :=
  (eligibleRows store q t ex).insertionSort (distLE q)

/-- The SQL function `match_embeddings(query_embedding, match_threshold,
match_count, exclude_song_id DEFAULT NULL)`: filter, order, limit, and
select `(id, title, artist, 1 - (embedding <=> query_embedding))`. -/
noncomputable def match_embeddings (store : List SongRow)
    (query_embedding : List ℝ) (match_threshold : ℝ) (match_count : ℕ)
    (exclude_song_id : Option String) : List MatchResult :=
  ((sortedRows store query_embedding match_threshold exclude_song_id).take
      match_count).map
    (fun r => ⟨r.id, r.title, r.artist,
      1 - cosineDistance r.embedding query_embedding⟩)

/-- Upsert keyed on `id` (Supabase `.upsert(records, { onConflict: 'id' })`,
i.e. `INSERT ... ON CONFLICT (id) DO UPDATE`): replace the row with the same
id in place, or append a fresh row. -/
def upsert (store : List SongRow) (r : SongRow) : List SongRow :=
  if store.any (fun s => s.id == r.id) then
    store.map (fun s => if s.id = r.id then r else s)
  else store ++ [r]

/-- Modelled from the spec: the store contract's
`nearest(query_vector, threshold, count, exclude_ids: set<string>)`, which
(unlike the source's `match_embeddings` with its single optional
`exclude_song_id`) excludes every id in a set.  This follows the spec's words
and exists to be compared with `match_embeddings`. -/
noncomputable def nearest_spec (store : List SongRow) (q : List ℝ) (t : ℝ)
    (c : ℕ) (excludeIds : List String) : List MatchResult :=
  (((store.filter (fun r =>
      decide (r.id ∉ excludeIds ∧ t < 1 - cosineDistance r.embedding q))).insertionSort
        (distLE q)).take c).map
    (fun r => ⟨r.id, r.title, r.artist, 1 - cosineDistance r.embedding q⟩)

/-! ## Concrete rows used by witnesses and counterexamples -/

/-- A row with embedding `[1, 0]`. -/
noncomputable def rowA : SongRow := ⟨"a", [1, 0], "ta", "wa"⟩

/-- A row with embedding `[0, 1]` (orthogonal to `rowA`). -/
noncomputable def rowB : SongRow := ⟨"b", [0, 1], "tb", "wb"⟩

/-- A row with the same embedding `[1, 0]` as `rowA` but larger id. -/
noncomputable def rowBtie : SongRow := ⟨"b", [1, 0], "tbt", "wbt"⟩

/-- A row with embedding `[2, 0]`, positively colinear with `rowA`. -/
noncomputable def rowBcol : SongRow := ⟨"b", [2, 0], "tbc", "wbc"⟩

/-- A row with unit embedding `[3/5, 4/5]`; cosine similarity `3/5` to
`[1, 0]`. -/
noncomputable def rowC : SongRow := ⟨"c", [3 / 5, 4 / 5], "tc", "wc"⟩

/-! ## Basic facts about the dot product and cosine distance -/

theorem dot_nil_left (b : List ℝ) : dot [] b = 0 := by simp [dot]

theorem dot_nil_right (a : List ℝ) : dot a [] = 0 := by
  cases a <;> simp [dot]

theorem dot_cons_cons (x y : ℝ) (a b : List ℝ) :
    dot (x :: a) (y :: b) = x * y + dot a b := by
  simp [dot]

theorem dot_self_nonneg (a : List ℝ) : 0 ≤ dot a a := by
  induction a with
  | nil => simp [dot]
  | cons x t ih => rw [dot_cons_cons]; nlinarith [mul_self_nonneg x]

/-- Cauchy–Schwarz for the list dot product, squared form. -/
theorem dot_sq_le : ∀ a b : List ℝ, dot a b ^ 2 ≤ dot a a * dot b b
  | [], b => by simp [dot_nil_left]
  | _ :: _, [] => by simp [dot_nil_right]
  | x :: t, y :: u => by
    have h := dot_sq_le t u
    have hA := dot_self_nonneg t
    have hB := dot_self_nonneg u
    have hS : 0 ≤ x * x * dot u u + dot t t * (y * y) :=
      add_nonneg (mul_nonneg (mul_self_nonneg x) hB)
        (mul_nonneg hA (mul_self_nonneg y))
    have key : 2 * (x * y) * dot t u ≤ x * x * dot u u + dot t t * (y * y) := by
      rcases le_or_lt (x * y * dot t u) 0 with hneg | hpos
      · nlinarith
      · have h4 : (2 * (x * y) * dot t u) ^ 2 ≤
            (x * x * dot u u + dot t t * (y * y)) ^ 2 := by
          nlinarith [sq_nonneg (x * x * dot u u - dot t t * (y * y)),
            mul_nonneg (mul_nonneg (mul_self_nonneg x) (mul_self_nonneg y))
              (sub_nonneg.mpr h)]
        calc 2 * (x * y) * dot t u
            = Real.sqrt ((2 * (x * y) * dot t u) ^ 2) :=
              (Real.sqrt_sq (by nlinarith)).symm
          _ ≤ Real.sqrt ((x * x * dot u u + dot t t * (y * y)) ^ 2) :=
              Real.sqrt_le_sqrt h4
          _ = x * x * dot u u + dot t t * (y * y) := Real.sqrt_sq hS
    rw [dot_cons_cons, dot_cons_cons, dot_cons_cons]
    nlinarith [key, h]

/-- Cauchy–Schwarz: the dot product is at most the product of the norms. -/
theorem dot_le_vnorm_mul (a b : List ℝ) : dot a b ≤ vnorm a * vnorm b := by
  have h := dot_sq_le a b
  have hnn : vnorm a * vnorm b = Real.sqrt (dot a a * dot b b) := by
    rw [vnorm, vnorm, Real.sqrt_mul (dot_self_nonneg a)]
  rw [hnn]
  calc dot a b ≤ |dot a b| := le_abs_self _
    _ = Real.sqrt (dot a b ^ 2) := (Real.sqrt_sq_eq_abs _).symm
    _ ≤ Real.sqrt (dot a a * dot b b) := Real.sqrt_le_sqrt h

/-- Cosine distance is nonnegative (similarity is at most 1). -/
theorem cosineDistance_nonneg (a b : List ℝ) : 0 ≤ cosineDistance a b := by
  unfold cosineDistance
  have h := dot_le_vnorm_mul a b
  have h0 : 0 ≤ vnorm a * vnorm b :=
    mul_nonneg (Real.sqrt_nonneg _) (Real.sqrt_nonneg _)
  rcases eq_or_lt_of_le h0 with h1 | h1
  · rw [← h1, div_zero]; norm_num
  · have := (div_le_one h1).mpr h
    linarith

/-- A vector with positive self dot product is at cosine distance 0 from
itself. -/
theorem cosineDistance_self {v : List ℝ} (hv : 0 < dot v v) :
    cosineDistance v v = 0 := by
  unfold cosineDistance vnorm
  rw [Real.mul_self_sqrt (le_of_lt hv), div_self (ne_of_gt hv)]
  ring

/-! ## Structure of the `match_embeddings` pipeline -/

theorem mem_eligibleRows {store : List SongRow} {q : List ℝ} {t : ℝ}
    {ex : Option String} {r : SongRow} :
    r ∈ eligibleRows store q t ex ↔ r ∈ store ∧ matchCond q t ex r := by
  simp [eligibleRows, List.mem_filter]

theorem sortedRows_perm (store : List SongRow) (q : List ℝ) (t : ℝ)
    (ex : Option String) :
    List.Perm (sortedRows store q t ex) (eligibleRows store q t ex) :=
  List.perm_insertionSort _ _

theorem sortedRows_sorted (store : List SongRow) (q : List ℝ) (t : ℝ)
    (ex : Option String) : (sortedRows store q t ex).Sorted (distLE q) :=
  List.sorted_insertionSort _ _

theorem mem_match_embeddings {store : List SongRow} {q : List ℝ} {t : ℝ}
    {c : ℕ} {ex : Option String} {m : MatchResult} :
    m ∈ match_embeddings store q t c ex →
    ∃ r : SongRow, r ∈ store ∧ matchCond q t ex r ∧
      m = ⟨r.id, r.title, r.artist, 1 - cosineDistance r.embedding q⟩ := by
  intro hm
  unfold match_embeddings at hm
  obtain ⟨r, hr, rfl⟩ := List.mem_map.mp hm
  have h1 : r ∈ sortedRows store q t ex := List.mem_of_mem_take hr
  have h2 : r ∈ eligibleRows store q t ex :=
    (List.mem_insertionSort _).mp h1
  exact ⟨r, (mem_eligibleRows.mp h2).1, (mem_eligibleRows.mp h2).2, rfl⟩

/-- Claim C1: for every query vector, threshold and count, `match_embeddings`
returns at most `match_count` songs; every returned song's similarity, which
is `1 - cosine distance` of its stored embedding to the query, strictly
exceeds the threshold; the returned list is ordered by descending similarity;
and with threshold 0 exactly the positively-similar songs are eligible. -/
theorem C1_match_embeddings_contract (store : List SongRow) (q : List ℝ)
    (t : ℝ) (c : ℕ) (ex : Option String) :
    (match_embeddings store q t c ex).length ≤ c ∧
    (∀ m ∈ match_embeddings store q t c ex, t < m.similarity) ∧
    (match_embeddings store q t c ex).Sorted
      (fun m₁ m₂ => m₂.similarity ≤ m₁.similarity) ∧
    (∀ r : SongRow, r ∈ eligibleRows store q 0 none ↔
      r ∈ store ∧ 0 < 1 - cosineDistance r.embedding q) := by
  refine ⟨?_, ?_, ?_, ?_⟩
  · unfold match_embeddings
    rw [List.length_map]
    exact List.length_take_le _ _
  · intro m hm
    obtain ⟨r, -, hc, rfl⟩ := mem_match_embeddings hm
    exact hc.2
  · unfold match_embeddings
    refine List.Pairwise.map _ (fun a b hab => ?_)
      (List.Pairwise.sublist (List.take_sublist _ _)
        (sortedRows_sorted store q t ex))
    exact sub_le_sub_left hab 1
  · intro r
    rw [mem_eligibleRows]
    simp [matchCond]

/-! ## Evaluations at concrete rows -/

theorem dot_eval_AA : dot [(1 : ℝ), 0] [1, 0] = 1 := by norm_num [dot]

theorem dot_eval_BB : dot [(0 : ℝ), 1] [0, 1] = 1 := by norm_num [dot]

theorem dot_eval_BA : dot [(0 : ℝ), 1] [1, 0] = 0 := by norm_num [dot]

theorem dot_eval_CC : dot [(3 : ℝ) / 5, 4 / 5] [3 / 5, 4 / 5] = 1 := by
  norm_num [dot]

theorem dot_eval_CA : dot [(3 : ℝ) / 5, 4 / 5] [1, 0] = 3 / 5 := by
  norm_num [dot]

theorem dot_eval_DD : dot [(2 : ℝ), 0] [2, 0] = 4 := by norm_num [dot]

theorem dot_eval_DA : dot [(2 : ℝ), 0] [1, 0] = 2 := by norm_num [dot]

theorem vnorm_eval_A : vnorm [(1 : ℝ), 0] = 1 := by
  rw [vnorm, dot_eval_AA, Real.sqrt_one]

theorem vnorm_eval_B : vnorm [(0 : ℝ), 1] = 1 := by
  rw [vnorm, dot_eval_BB, Real.sqrt_one]

theorem vnorm_eval_C : vnorm [(3 : ℝ) / 5, 4 / 5] = 1 := by
  rw [vnorm, dot_eval_CC, Real.sqrt_one]

theorem vnorm_eval_D : vnorm [(2 : ℝ), 0] = 2 := by
  rw [vnorm, dot_eval_DD, show (4 : ℝ) = 2 ^ 2 by norm_num,
    Real.sqrt_sq (by norm_num)]

theorem cos_eval_AA : cosineDistance [(1 : ℝ), 0] [1, 0] = 0 := by
  rw [cosineDistance, dot_eval_AA, vnorm_eval_A]; norm_num

theorem cos_eval_BA : cosineDistance [(0 : ℝ), 1] [1, 0] = 1 := by
  rw [cosineDistance, dot_eval_BA, vnorm_eval_B, vnorm_eval_A]; norm_num

theorem cos_eval_CA : cosineDistance [(3 : ℝ) / 5, 4 / 5] [1, 0] = 2 / 5 := by
  rw [cosineDistance, dot_eval_CA, vnorm_eval_C, vnorm_eval_A]; norm_num

theorem cos_eval_DA : cosineDistance [(2 : ℝ), 0] [1, 0] = 0 := by
  rw [cosineDistance, dot_eval_DA, vnorm_eval_D, vnorm_eval_A]; norm_num

theorem matchCond_rowA : matchCond [1, 0] 0 none rowA := by
  refine ⟨Or.inl rfl, ?_⟩
  show (0 : ℝ) < 1 - cosineDistance rowA.embedding [1, 0]
  rw [show rowA.embedding = [(1 : ℝ), 0] from rfl, cos_eval_AA]
  norm_num

theorem not_matchCond_rowB : ¬ matchCond [1, 0] 0 none rowB := by
  rintro ⟨-, h⟩
  rw [show rowB.embedding = [(0 : ℝ), 1] from rfl, cos_eval_BA] at h
  linarith

theorem elig_eval_AB : eligibleRows [rowA, rowB] [1, 0] 0 none = [rowA] := by
  unfold eligibleRows
  simp only [List.filter_cons, List.filter_nil, decide_eq_true_eq]
  rw [if_pos matchCond_rowA, if_neg not_matchCond_rowB]

theorem sorted_eval_AB : sortedRows [rowA, rowB] [1, 0] 0 none = [rowA] := by
  unfold sortedRows
  rw [elig_eval_AB]
  simp

theorem match_eval_AB :
    match_embeddings [rowA, rowB] [1, 0] 0 2 none =
      [⟨"a", "ta", "wa", 1⟩] := by
  unfold match_embeddings
  rw [sorted_eval_AB]
  simp only [List.take, List.map]
  congr 1
  rw [show rowA.id = "a" from rfl]
  rw [show rowA.title = "ta" from rfl]
  rw [show rowA.artist = "wa" from rfl]
  rw [show rowA.embedding = [(1 : ℝ), 0] from rfl, cos_eval_AA]
  norm_num

/-- Witness for C1 at a concrete store: the single returned row is a member of
the result and its similarity strictly exceeds the threshold 0. -/
theorem C1_witness :
    (⟨"a", "ta", "wa", 1⟩ : MatchResult) ∈
      match_embeddings [rowA, rowB] [1, 0] 0 2 none ∧
    (0 : ℝ) < (⟨"a", "ta", "wa", (1 : ℝ)⟩ : MatchResult).similarity := by
  have hm : (⟨"a", "ta", "wa", (1 : ℝ)⟩ : MatchResult) ∈
      match_embeddings [rowA, rowB] [1, 0] 0 2 none := by
    rw [match_eval_AB]
    exact List.mem_singleton_self _
  exact ⟨hm, (C1_match_embeddings_contract [rowA, rowB] [1, 0] 0 2 none).2.1 _ hm⟩

/-! ## Stability of the sort with respect to filtering

A stable sort commutes with filtering; for a predicate that is downward
closed along the sort order, the filtered part of a sorted list is an initial
segment.  These facts drive threshold monotonicity. -/

theorem filter_orderedInsert_of_neg {α : Type} (r : α → α → Prop)
    [DecidableRel r] (p : α → Bool) (a : α) (hpa : p a = false)
    (S : List α) : (S.orderedInsert r a).filter p = S.filter p := by
  induction S with
  | nil => simp [hpa]
  | cons b t ih =>
    by_cases hab : r a b
    · simp [List.orderedInsert, if_pos hab, List.filter_cons, hpa]
    · simp only [List.orderedInsert, if_neg hab, List.filter_cons, ih]

theorem filter_orderedInsert_of_pos {α : Type} (r : α → α → Prop)
    [DecidableRel r] [IsTotal α r] (p : α → Bool)
    (hdc : ∀ x y, r x y → p y = true → p x = true)
    (a : α) (hpa : p a = true) :
    ∀ S : List α, S.Sorted r →
      (S.orderedInsert r a).filter p = (S.filter p).orderedInsert r a := by
  intro S
  induction S with
  | nil => intro _; simp [hpa]
  | cons b t ih =>
    intro hs
    by_cases hab : r a b
    · by_cases hpb : p b = true
      · simp [List.orderedInsert, if_pos hab, List.filter_cons, hpa, hpb]
      · have hall : ∀ c ∈ t, ¬ p c = true := by
          intro c hc hpc
          exact hpb (hdc b c (List.rel_of_sorted_cons hs c hc) hpc)
        have hnil : t.filter p = [] := List.filter_eq_nil_iff.mpr hall
        simp [List.orderedInsert, if_pos hab, List.filter_cons, hpa, hpb, hnil]
    · have hba : r b a := (total_of r a b).resolve_left hab
      by_cases hpb : p b = true
      · simp only [List.orderedInsert, if_neg hab, List.filter_cons, hpb,
          if_pos hpb, ih hs.of_cons]
        simp [List.orderedInsert, if_neg hab, hpb]
      · exact absurd (hdc b a hba hpa) hpb

theorem filter_insertionSort {α : Type} (r : α → α → Prop) [DecidableRel r]
    [IsTotal α r] [IsTrans α r] (p : α → Bool)
    (hdc : ∀ x y, r x y → p y = true → p x = true) :
    ∀ l : List α, (l.insertionSort r).filter p = (l.filter p).insertionSort r := by
  intro l
  induction l with
  | nil => simp
  | cons a t ih =>
    by_cases hpa : p a = true
    · simp only [List.insertionSort]
      rw [filter_orderedInsert_of_pos r p hdc a hpa _
        (List.sorted_insertionSort r t), ih]
      simp [List.filter_cons, hpa, List.insertionSort]
    · simp only [List.insertionSort]
      rw [filter_orderedInsert_of_neg r p a (by
        revert hpa; cases p a <;> simp), ih]
      simp [List.filter_cons, hpa]

/-- On a sorted list, filtering by a predicate downward closed along the order
keeps an initial segment. -/
theorem filter_eq_takeWhile_of_sorted {α : Type} {r : α → α → Prop}
    (p : α → Bool) (hdc : ∀ x y, r x y → p y = true → p x = true) :
    ∀ S : List α, S.Sorted r → S.filter p = S.takeWhile p := by
  intro S
  induction S with
  | nil => intro _; rfl
  | cons b t ih =>
    intro hs
    by_cases hpb : p b = true
    · rw [List.filter_cons_of_pos hpb, List.takeWhile_cons_of_pos hpb,
        ih hs.of_cons]
    · have hall : ∀ c ∈ t, ¬ p c = true := by
        intro c hc hpc
        exact hpb (hdc b c (List.rel_of_sorted_cons hs c hc) hpc)
      rw [List.filter_cons_of_neg hpb, List.takeWhile_cons_of_neg hpb,
        List.filter_eq_nil_iff.mpr hall]

theorem take_takeWhile_subset {α : Type} (p : α → Bool) :
    ∀ (l : List α) (c : ℕ) (x : α), x ∈ (l.takeWhile p).take c → x ∈ l.take c := by
  intro l
  induction l with
  | nil => intro c x hx; simpa using hx
  | cons a t ih =>
    intro c x hx
    by_cases hpa : p a = true
    · rw [List.takeWhile_cons_of_pos hpa] at hx
      cases c with
      | zero => simpa using hx
      | succ c =>
        rw [List.take_succ_cons] at hx ⊢
        rcases List.mem_cons.mp hx with h | h
        · exact List.mem_cons.mpr (Or.inl h)
        · exact List.mem_cons.mpr (Or.inr (ih c x h))
    · rw [List.takeWhile_cons_of_neg hpa] at hx
      simp at hx

/-! ## Threshold monotonicity -/

theorem eligibleRows_filter (store : List SongRow) (q : List ℝ)
    (ex : Option String) {t1 t2 : ℝ} (h12 : t1 ≤ t2) :
    eligibleRows store q t2 ex =
      (eligibleRows store q t1 ex).filter
        (fun r => decide (t2 < 1 - cosineDistance r.embedding q)) := by
  unfold eligibleRows
  rw [List.filter_filter]
  apply List.filter_congr
  intro r _
  have hiff : matchCond q t2 ex r ↔
      t2 < 1 - cosineDistance r.embedding q ∧ matchCond q t1 ex r := by
    constructor
    · rintro ⟨hex, hgt⟩
      exact ⟨hgt, hex, lt_of_le_of_lt h12 hgt⟩
    · rintro ⟨hgt, hex, -⟩
      exact ⟨hex, hgt⟩
  rw [show (decide (t2 < 1 - cosineDistance r.embedding q) &&
      decide (matchCond q t1 ex r)) =
      decide ((t2 < 1 - cosineDistance r.embedding q) ∧ matchCond q t1 ex r) from
    (Bool.decide_and _ _).symm]
  exact decide_eq_decide.mpr hiff

theorem distLE_downward_closed (q : List ℝ) (t2 : ℝ) :
    ∀ x y : SongRow, distLE q x y →
      decide (t2 < 1 - cosineDistance y.embedding q) = true →
      decide (t2 < 1 - cosineDistance x.embedding q) = true := by
  intro x y hxy hy
  rw [decide_eq_true_eq] at hy ⊢
  have : 1 - cosineDistance y.embedding q ≤ 1 - cosineDistance x.embedding q :=
    sub_le_sub_left hxy 1
  linarith

theorem sortedRows_filter (store : List SongRow) (q : List ℝ)
    (ex : Option String) {t1 t2 : ℝ} (h12 : t1 ≤ t2) :
    sortedRows store q t2 ex =
      (sortedRows store q t1 ex).filter
        (fun r => decide (t2 < 1 - cosineDistance r.embedding q)) := by
  unfold sortedRows
  rw [eligibleRows_filter store q ex h12]
  exact (filter_insertionSort (distLE q) _ (distLE_downward_closed q t2) _).symm

/-- Claim C6: for a fixed query vector, count and exclusion, raising the
threshold never adds a result: everything returned at threshold `t2 ≥ t1` is
also returned at threshold `t1`. -/
theorem C6_threshold_monotone (store : List SongRow) (q : List ℝ) (c : ℕ)
    (ex : Option String) (t1 t2 : ℝ) (h12 : t1 ≤ t2) :
    ∀ m ∈ match_embeddings store q t2 c ex,
      m ∈ match_embeddings store q t1 c ex := by
  intro m hm
  unfold match_embeddings at hm ⊢
  obtain ⟨r, hr, rfl⟩ := List.mem_map.mp hm
  refine List.mem_map.mpr ⟨r, ?_, rfl⟩
  rw [sortedRows_filter store q ex h12,
    filter_eq_takeWhile_of_sorted _ (distLE_downward_closed q t2) _
      (sortedRows_sorted store q t1 ex)] at hr
  exact take_takeWhile_subset _ _ c r hr

theorem matchCond_rowA_high : matchCond [1, 0] (7 / 10) none rowA := by
  refine ⟨Or.inl rfl, ?_⟩
  show (7 : ℝ) / 10 < 1 - cosineDistance rowA.embedding [1, 0]
  rw [show rowA.embedding = [(1 : ℝ), 0] from rfl, cos_eval_AA]
  norm_num

theorem not_matchCond_rowC_high : ¬ matchCond [1, 0] (7 / 10) none rowC := by
  rintro ⟨-, h⟩
  rw [show rowC.embedding = [(3 : ℝ) / 5, 4 / 5] from rfl, cos_eval_CA] at h
  linarith

theorem elig_eval_AC_high :
    eligibleRows [rowA, rowC] [1, 0] (7 / 10) none = [rowA] := by
  unfold eligibleRows
  simp only [List.filter_cons, List.filter_nil, decide_eq_true_eq]
  rw [if_pos matchCond_rowA_high, if_neg not_matchCond_rowC_high]

theorem match_eval_AC_high :
    match_embeddings [rowA, rowC] [1, 0] (7 / 10) 2 none =
      [⟨"a", "ta", "wa", 1⟩] := by
  unfold match_embeddings
  rw [show sortedRows [rowA, rowC] [1, 0] (7 / 10) none = [rowA] by
    unfold sortedRows; rw [elig_eval_AC_high]; simp]
  simp only [List.take, List.map]
  congr 1
  rw [show rowA.id = "a" from rfl, show rowA.title = "ta" from rfl,
    show rowA.artist = "wa" from rfl,
    show rowA.embedding = [(1 : ℝ), 0] from rfl, cos_eval_AA]
  norm_num

/-- Witness for C6: with thresholds `0 ≤ 7/10`, the row returned at the higher
threshold is also returned at the lower one. -/
theorem C6_witness :
    (0 : ℝ) ≤ 7 / 10 ∧
    (⟨"a", "ta", "wa", 1⟩ : MatchResult) ∈
      match_embeddings [rowA, rowC] [1, 0] (7 / 10) 2 none ∧
    (⟨"a", "ta", "wa", 1⟩ : MatchResult) ∈
      match_embeddings [rowA, rowC] [1, 0] 0 2 none := by
  have hm : (⟨"a", "ta", "wa", (1 : ℝ)⟩ : MatchResult) ∈
      match_embeddings [rowA, rowC] [1, 0] (7 / 10) 2 none := by
    rw [match_eval_AC_high]
    exact List.mem_singleton_self _
  exact ⟨by norm_num, hm,
    C6_threshold_monotone [rowA, rowC] [1, 0] 2 none 0 (7 / 10) (by norm_num) _ hm⟩

/-! ## Tie-breaking (C2) -/

theorem matchCond_rowBtie : matchCond [1, 0] 0 none rowBtie := by
  refine ⟨Or.inl rfl, ?_⟩
  show (0 : ℝ) < 1 - cosineDistance rowBtie.embedding [1, 0]
  rw [show rowBtie.embedding = [(1 : ℝ), 0] from rfl, cos_eval_AA]
  norm_num

theorem elig_eval_tie :
    eligibleRows [rowBtie, rowA] [1, 0] 0 none = [rowBtie, rowA] := by
  unfold eligibleRows
  simp only [List.filter_cons, List.filter_nil, decide_eq_true_eq]
  rw [if_pos matchCond_rowBtie, if_pos matchCond_rowA]

theorem distLE_tie : distLE [1, 0] rowBtie rowA := by
  show cosineDistance rowBtie.embedding [1, 0] ≤ cosineDistance rowA.embedding [1, 0]
  rw [show rowBtie.embedding = [(1 : ℝ), 0] from rfl,
    show rowA.embedding = [(1 : ℝ), 0] from rfl]

theorem sorted_eval_tie :
    sortedRows [rowBtie, rowA] [1, 0] 0 none = [rowBtie, rowA] := by
  unfold sortedRows
  rw [elig_eval_tie]
  simp only [List.insertionSort, List.orderedInsert]
  rw [if_pos distLE_tie]

theorem match_eval_tie :
    match_embeddings [rowBtie, rowA] [1, 0] 0 2 none =
      [⟨"b", "tbt", "wbt", 1⟩, ⟨"a", "ta", "wa", 1⟩] := by
  unfold match_embeddings
  rw [sorted_eval_tie]
  simp only [List.take, List.map]
  congr 1
  · rw [show rowBtie.id = "b" from rfl, show rowBtie.title = "tbt" from rfl,
      show rowBtie.artist = "wbt" from rfl,
      show rowBtie.embedding = [(1 : ℝ), 0] from rfl, cos_eval_AA]
    norm_num
  · congr 1
    rw [show rowA.id = "a" from rfl, show rowA.title = "ta" from rfl,
      show rowA.artist = "wa" from rfl,
      show rowA.embedding = [(1 : ℝ), 0] from rfl, cos_eval_AA]
    norm_num

/-- Counterexample to C2: at a tie (two stored rows with the same embedding,
hence the same similarity 1 to the query), `match_embeddings` returns the row
with the larger id `"b"` first — the `ORDER BY` has no id tie-break and the
model keeps table order. -/
theorem C2_counterexample :
    match_embeddings [rowBtie, rowA] [1, 0] 0 2 none =
      [⟨"b", "tbt", "wbt", 1⟩, ⟨"a", "ta", "wa", 1⟩] ∧
    ("a" : String) < "b" := by
  refine ⟨match_eval_tie, ?_⟩
  rw [String.lt_iff_toList_lt]
  decide

/-- Claim C2 amended: the query orders only by the distance key, so the
relative order of equal-similarity rows is not determined by id; instead any
pair of eligible rows in store order whose distances are non-decreasing (in
particular, tied rows) keeps its store order in the sorted output. -/
theorem C2_amended_tie_order (store : List SongRow) (q : List ℝ) (t : ℝ)
    (ex : Option String) (r₁ r₂ : SongRow)
    (hsub : List.Sublist [r₁, r₂] (eligibleRows store q t ex))
    (hle : distLE q r₁ r₂) :
    List.Sublist [r₁, r₂] (sortedRows store q t ex) := by
  unfold sortedRows
  exact List.pair_sublist_insertionSort hle hsub

/-- Witness for the amended C2 at the concrete tie store. -/
theorem C2_amended_witness :
    List.Sublist [rowBtie, rowA] (eligibleRows [rowBtie, rowA] [1, 0] 0 none) ∧
    distLE [1, 0] rowBtie rowA ∧
    List.Sublist [rowBtie, rowA] (sortedRows [rowBtie, rowA] [1, 0] 0 none) := by
  have h1 : List.Sublist [rowBtie, rowA] (eligibleRows [rowBtie, rowA] [1, 0] 0 none) := by
    rw [elig_eval_tie]
  exact ⟨h1, distLE_tie,
    C2_amended_tie_order [rowBtie, rowA] [1, 0] 0 none rowBtie rowA h1 distLE_tie⟩

/-! ## Exclusion (C5) -/

theorem matchCond_exA_rowBtie : matchCond [1, 0] 0 (some "a") rowBtie := by
  refine ⟨Or.inr ?_, ?_⟩
  · rw [show rowBtie.id = "b" from rfl]
    decide
  · show (0 : ℝ) < 1 - cosineDistance rowBtie.embedding [1, 0]
    rw [show rowBtie.embedding = [(1 : ℝ), 0] from rfl, cos_eval_AA]
    norm_num

theorem not_matchCond_exA_rowA : ¬ matchCond [1, 0] 0 (some "a") rowA := by
  rintro ⟨h, -⟩
  rcases h with h | h
  · simp at h
  · rw [show rowA.id = "a" from rfl] at h
    exact h rfl

theorem matchCond_exB_rowA : matchCond [1, 0] 0 (some "b") rowA := by
  refine ⟨Or.inr ?_, ?_⟩
  · rw [show rowA.id = "a" from rfl]
    decide
  · show (0 : ℝ) < 1 - cosineDistance rowA.embedding [1, 0]
    rw [show rowA.embedding = [(1 : ℝ), 0] from rfl, cos_eval_AA]
    norm_num

theorem not_matchCond_exB_rowBtie : ¬ matchCond [1, 0] 0 (some "b") rowBtie := by
  rintro ⟨h, -⟩
  rcases h with h | h
  · simp at h
  · rw [show rowBtie.id = "b" from rfl] at h
    exact h rfl

theorem match_eval_exA :
    match_embeddings [rowA, rowBtie] [1, 0] 0 5 (some "a") =
      [⟨"b", "tbt", "wbt", 1⟩] := by
  unfold match_embeddings
  rw [show sortedRows [rowA, rowBtie] [1, 0] 0 (some "a") = [rowBtie] by
    unfold sortedRows eligibleRows
    simp only [List.filter_cons, List.filter_nil, decide_eq_true_eq]
    rw [if_neg not_matchCond_exA_rowA, if_pos matchCond_exA_rowBtie]
    simp]
  simp only [List.take, List.map]
  congr 1
  rw [show rowBtie.id = "b" from rfl, show rowBtie.title = "tbt" from rfl,
    show rowBtie.artist = "wbt" from rfl,
    show rowBtie.embedding = [(1 : ℝ), 0] from rfl, cos_eval_AA]
  norm_num

theorem match_eval_exB :
    match_embeddings [rowA, rowBtie] [1, 0] 0 5 (some "b") =
      [⟨"a", "ta", "wa", 1⟩] := by
  unfold match_embeddings
  rw [show sortedRows [rowA, rowBtie] [1, 0] 0 (some "b") = [rowA] by
    unfold sortedRows eligibleRows
    simp only [List.filter_cons, List.filter_nil, decide_eq_true_eq]
    rw [if_pos matchCond_exB_rowA, if_neg not_matchCond_exB_rowBtie]
    simp]
  simp only [List.take, List.map]
  congr 1
  rw [show rowA.id = "a" from rfl, show rowA.title = "ta" from rfl,
    show rowA.artist = "wa" from rfl,
    show rowA.embedding = [(1 : ℝ), 0] from rfl, cos_eval_AA]
  norm_num

theorem nearest_spec_eval_exAB :
    nearest_spec [rowA, rowBtie] [1, 0] 0 5 ["a", "b"] = [] := by
  unfold nearest_spec
  simp only [List.filter_cons, List.filter_nil, decide_eq_true_eq]
  rw [if_neg, if_neg]
  · simp
  · rintro ⟨h, -⟩
    rw [show rowBtie.id = "b" from rfl] at h
    simp at h
  · rintro ⟨h, -⟩
    rw [show rowA.id = "a" from rfl] at h
    simp at h

/-- Counterexample to C5: the source's exclusion parameter is a single
optional id, not a set.  With both stored rows positively similar to the
query, excluding the set `{"a", "b"}` should (per the spec's `nearest`)
return nothing, but each of the only two expressible calls still returns a
member of that set. -/
theorem C5_counterexample :
    (match_embeddings [rowA, rowBtie] [1, 0] 0 5 (some "a")).map
        MatchResult.id = ["b"] ∧
    (match_embeddings [rowA, rowBtie] [1, 0] 0 5 (some "b")).map
        MatchResult.id = ["a"] ∧
    nearest_spec [rowA, rowBtie] [1, 0] 0 5 ["a", "b"] = [] := by
  refine ⟨?_, ?_, nearest_spec_eval_exAB⟩
  · rw [match_eval_exA]; rfl
  · rw [match_eval_exB]; rfl

/-- Claim C5 amended: the exclusion parameter of `match_embeddings` is a
single optional song id; when it is given, that one id never appears in the
returned rows. -/
theorem C5_amended_single_exclusion (store : List SongRow) (q : List ℝ)
    (t : ℝ) (c : ℕ) (x : String) :
    ∀ m ∈ match_embeddings store q t c (some x), m.id ≠ x := by
  intro m hm
  obtain ⟨r, -, hc, rfl⟩ := mem_match_embeddings hm
  rcases hc.1 with h | h
  · simp at h
  · intro heq
    exact h (congrArg some heq)

/-- Witness for the amended C5: the row returned while excluding `"a"` indeed
has an id different from `"a"`. -/
theorem C5_amended_witness :
    (⟨"b", "tbt", "wbt", 1⟩ : MatchResult) ∈
      match_embeddings [rowA, rowBtie] [1, 0] 0 5 (some "a") ∧
    (⟨"b", "tbt", "wbt", (1 : ℝ)⟩ : MatchResult).id ≠ "a" := by
  have hm : (⟨"b", "tbt", "wbt", (1 : ℝ)⟩ : MatchResult) ∈
      match_embeddings [rowA, rowBtie] [1, 0] 0 5 (some "a") := by
    rw [match_eval_exA]
    exact List.mem_singleton_self _
  exact ⟨hm, C5_amended_single_exclusion [rowA, rowBtie] [1, 0] 0 5 "a" _ hm⟩

/-! ## Upsert round-trip (C7) -/

theorem mem_upsert_self (store : List SongRow) (r : SongRow) :
    r ∈ upsert store r := by
  unfold upsert
  split_ifs with h
  · rw [List.any_eq_true] at h
    obtain ⟨s, hs, hsr⟩ := h
    exact List.mem_map.mpr ⟨s, hs, by rw [if_pos (by simpa using hsr)]⟩
  · exact List.mem_append.mpr (Or.inr (List.mem_singleton_self _))

/-- Claim C7 amended: upserting a song with a nonzero embedding and then
querying `match_embeddings` with the song's own embedding, threshold 0,
count 1 and no exclusion returns that song with similarity exactly 1 —
provided ids are unique in the store (the table's primary key) and no other
stored song has cosine similarity exactly 1 to the upserted embedding
(a positively colinear duplicate would tie at distance 0 and can win the
tie by store order). -/
theorem C7_upsert_roundtrip (store : List SongRow) (r : SongRow)
    (hnod : ((upsert store r).map SongRow.id).Nodup)
    (hv : 0 < dot r.embedding r.embedding)
    (hcol : ∀ s ∈ upsert store r, s.id ≠ r.id →
      1 - cosineDistance s.embedding r.embedding ≠ 1) :
    match_embeddings (upsert store r) r.embedding 0 1 none =
      [⟨r.id, r.title, r.artist, 1⟩] := by
  have hmem : r ∈ upsert store r := mem_upsert_self store r
  have hcond : matchCond r.embedding 0 none r := by
    refine ⟨Or.inl rfl, ?_⟩
    rw [cosineDistance_self hv]
    norm_num
  have hrE : r ∈ eligibleRows (upsert store r) r.embedding 0 none :=
    mem_eligibleRows.mpr ⟨hmem, hcond⟩
  have hrS : r ∈ sortedRows (upsert store r) r.embedding 0 none :=
    (List.mem_insertionSort _).mpr hrE
  obtain ⟨h, tl, hS⟩ :
      ∃ h tl, sortedRows (upsert store r) r.embedding 0 none = h :: tl := by
    cases hSs : sortedRows (upsert store r) r.embedding 0 none with
    | nil => rw [hSs] at hrS; simp at hrS
    | cons h tl => exact ⟨h, tl, rfl⟩
  have hhE : h ∈ eligibleRows (upsert store r) r.embedding 0 none :=
    (List.mem_insertionSort _).mp (hS ▸ List.mem_cons_self _ _)
  have hhStore : h ∈ upsert store r := (mem_eligibleRows.mp hhE).1
  have hsorted := sortedRows_sorted (upsert store r) r.embedding 0 none
  rw [hS] at hsorted
  have hdist0 : cosineDistance h.embedding r.embedding = 0 := by
    rcases List.mem_cons.mp (hS ▸ hrS) with heq | htl
    · rw [← heq]
      exact cosineDistance_self hv
    · have hle : distLE r.embedding h r :=
        List.rel_of_sorted_cons hsorted r htl
      have h2 : cosineDistance h.embedding r.embedding ≤
          cosineDistance r.embedding r.embedding := hle
      rw [cosineDistance_self hv] at h2
      exact le_antisymm h2 (cosineDistance_nonneg _ _)
  have hid : h.id = r.id := by
    by_contra hne
    exact hcol h hhStore hne (by rw [hdist0]; norm_num)
  have hhr : h = r :=
    List.inj_on_of_nodup_map hnod hhStore hmem hid
  unfold match_embeddings
  rw [hS, hhr]
  simp only [List.take, List.map]
  congr 1
  rw [cosineDistance_self hv]
  norm_num

theorem upsert_eval_colinear : upsert [rowBcol] rowA = [rowBcol, rowA] := by
  unfold upsert
  rw [if_neg]
  · rfl
  · simp only [List.any_cons, List.any_nil]
    rw [show rowBcol.id = "b" from rfl, show rowA.id = "a" from rfl]
    decide

theorem matchCond_rowBcol : matchCond [1, 0] 0 none rowBcol := by
  refine ⟨Or.inl rfl, ?_⟩
  show (0 : ℝ) < 1 - cosineDistance rowBcol.embedding [1, 0]
  rw [show rowBcol.embedding = [(2 : ℝ), 0] from rfl, cos_eval_DA]
  norm_num

theorem distLE_colinear : distLE [1, 0] rowBcol rowA := by
  show cosineDistance rowBcol.embedding [1, 0] ≤ cosineDistance rowA.embedding [1, 0]
  rw [show rowBcol.embedding = [(2 : ℝ), 0] from rfl,
    show rowA.embedding = [(1 : ℝ), 0] from rfl, cos_eval_DA, cos_eval_AA]

theorem match_eval_colinear :
    match_embeddings [rowBcol, rowA] [1, 0] 0 1 none =
      [⟨"b", "tbc", "wbc", 1⟩] := by
  unfold match_embeddings
  rw [show sortedRows [rowBcol, rowA] [1, 0] 0 none = [rowBcol, rowA] by
    unfold sortedRows eligibleRows
    simp only [List.filter_cons, List.filter_nil, decide_eq_true_eq]
    rw [if_pos matchCond_rowBcol, if_pos matchCond_rowA]
    simp only [List.insertionSort, List.orderedInsert]
    rw [if_pos distLE_colinear]]
  simp only [List.take, List.map]
  congr 1
  rw [show rowBcol.id = "b" from rfl, show rowBcol.title = "tbc" from rfl,
    show rowBcol.artist = "wbc" from rfl,
    show rowBcol.embedding = [(2 : ℝ), 0] from rfl, cos_eval_DA]
  norm_num

/-- Counterexample to C7: upserting the song `"a"` (embedding `[1, 0]`) into a
store already containing `"b"` with the positively colinear embedding `[2, 0]`
and then querying with `"a"`'s own embedding at threshold 0, count 1, returns
`"b"`, not `"a"` — both are at distance 0 and the earlier row wins the tie. -/
theorem C7_counterexample :
    (match_embeddings (upsert [rowBcol] rowA) rowA.embedding 0 1 none).map
      MatchResult.id = ["b"] ∧ ("b" : String) ≠ "a" := by
  constructor
  · rw [upsert_eval_colinear,
      show rowA.embedding = [(1 : ℝ), 0] from rfl, match_eval_colinear]
    rfl
  · decide

theorem upsert_eval_orth : upsert [rowB] rowA = [rowB, rowA] := by
  unfold upsert
  rw [if_neg]
  · rfl
  · simp only [List.any_cons, List.any_nil]
    rw [show rowB.id = "b" from rfl, show rowA.id = "a" from rfl]
    decide

/-- Witness for the amended C7 at a concrete store with no colinear
duplicate: the upserted song comes back with similarity exactly 1. -/
theorem C7_witness :
    ((upsert [rowB] rowA).map SongRow.id).Nodup ∧
    0 < dot rowA.embedding rowA.embedding ∧
    match_embeddings (upsert [rowB] rowA) rowA.embedding 0 1 none =
      [⟨rowA.id, rowA.title, rowA.artist, 1⟩] := by
  have hnod : ((upsert [rowB] rowA).map SongRow.id).Nodup := by
    rw [upsert_eval_orth]
    rw [show ([rowB, rowA].map SongRow.id) = ["b", "a"] from rfl]
    decide
  have hv : 0 < dot rowA.embedding rowA.embedding := by
    rw [show rowA.embedding = [(1 : ℝ), 0] from rfl, dot_eval_AA]
    norm_num
  have hcol : ∀ s ∈ upsert [rowB] rowA, s.id ≠ rowA.id →
      1 - cosineDistance s.embedding rowA.embedding ≠ 1 := by
    rw [upsert_eval_orth]
    intro s hs hne
    rcases List.mem_cons.mp hs with heq | hs2
    · subst heq
      rw [show rowB.embedding = [(0 : ℝ), 1] from rfl,
        show rowA.embedding = [(1 : ℝ), 0] from rfl, cos_eval_BA]
      norm_num
    · rw [List.mem_singleton.mp hs2] at hne
      exact absurd rfl hne
  exact ⟨hnod, hv, C7_upsert_roundtrip [rowB] rowA hnod hv hcol⟩

/-! ## The mock queue loop: length bound, uniqueness, seed exclusion (C3) -/

theorem map_eraseIdx {α β : Type} (f : α → β) :
    ∀ (l : List α) (i : ℕ), (l.eraseIdx i).map f = (l.map f).eraseIdx i
  | [], _ => by simp
  | _ :: _, 0 => by simp [List.eraseIdx]
  | a :: t, i + 1 => by
    simp only [List.eraseIdx, List.map]
    rw [map_eraseIdx f t i]

theorem get_not_mem_eraseIdx_of_nodup {α : Type} :
    ∀ (l : List α) (i : ℕ) (h : i < l.length), l.Nodup →
      l.get ⟨i, h⟩ ∉ l.eraseIdx i
  | a :: t, 0, _, hnd => by
    simp only [List.eraseIdx, List.get]
    exact (List.nodup_cons.mp hnd).1
  | a :: t, i + 1, h, hnd => by
    simp only [List.eraseIdx, List.get]
    intro hmem
    rcases List.mem_cons.mp hmem with heq | hmem2
    · exact (List.nodup_cons.mp hnd).1 (heq ▸ t.get_mem i _)
    · exact get_not_mem_eraseIdx_of_nodup t i
        (by simpa using h) (List.nodup_cons.mp hnd).2 hmem2

theorem map_get_not_mem_eraseIdx_of_nodup {α β : Type} (f : α → β)
    (l : List α) (i : ℕ) (h : i < l.length) (hnd : (l.map f).Nodup) :
    f (l.get ⟨i, h⟩) ∉ (l.eraseIdx i).map f := by
  rw [map_eraseIdx]
  have h2 : i < (l.map f).length := by simpa using h
  have h3 : f (l.get ⟨i, h⟩) = (l.map f).get ⟨i, h2⟩ := by
    simp [List.get_eq_getElem]
  rw [h3]
  exact get_not_mem_eraseIdx_of_nodup _ i h2 hnd

theorem queueLoop_spec (rng : ℕ → ℕ) (traits : List TraitReq) :
    ∀ (n : ℕ) (avail : List MockSong) (k : ℕ) (acc out : List QueueSong),
      queueLoop rng traits n avail k acc = .ok out →
      out.length ≤ n + acc.length ∧
      (∀ x ∈ out.map QueueSong.songID,
        x ∈ acc.map QueueSong.songID ∨ x ∈ avail.map MockSong.id) ∧
      ((avail.map MockSong.id).Nodup → (acc.map QueueSong.songID).Nodup →
        (∀ x ∈ acc.map QueueSong.songID, x ∉ avail.map MockSong.id) →
        (out.map QueueSong.songID).Nodup) := by
  intro n
  induction n with
  | zero =>
    intro avail k acc out hout
    simp only [queueLoop, Except.ok.injEq] at hout
    subst hout
    refine ⟨by simp, ?_, ?_⟩
    · intro x hx
      rw [List.map_reverse, List.mem_reverse] at hx
      exact Or.inl hx
    · intro _ hacc _
      rw [List.map_reverse]
      exact List.nodup_reverse.mpr hacc
  | succ n ih =>
    intro avail k acc out hout
    by_cases h0 : avail.length = 0
    · rw [show queueLoop rng traits (n + 1) avail k acc =
        .error "Failed to generate song queue" from by
          simp only [queueLoop, dif_pos h0]] at hout
      exact absurd hout (by simp)
    · have hlt : rng k % avail.length < avail.length :=
        Nat.mod_lt _ (Nat.pos_of_ne_zero h0)
      set idx := rng k % avail.length with hidx
      set s := avail.get ⟨idx, hlt⟩ with hs
      set p := traitVals rng s traits (k + 1) with hp
      set acc' : List QueueSong := ⟨s.id, p.1⟩ :: acc with hacc'
      set avail' := avail.eraseIdx idx with havail'
      have hsid : s.id ∈ avail.map MockSong.id :=
        List.mem_map_of_mem _ (avail.get_mem idx hlt)
      have hsub : List.Sublist (avail'.map MockSong.id) (avail.map MockSong.id) := by
        rw [havail', map_eraseIdx]
        exact List.eraseIdx_sublist _ _
      have hrec : (avail'.length = 0 ∧ out = acc'.reverse) ∨
          (avail'.length ≠ 0 ∧ queueLoop rng traits n avail' p.2 acc' = .ok out) := by
        rw [show queueLoop rng traits (n + 1) avail k acc =
            (if avail'.length = 0 then .ok acc'.reverse
             else queueLoop rng traits n avail' p.2 acc') from by
          simp only [queueLoop, dif_neg h0]] at hout
        by_cases h1 : avail'.length = 0
        · rw [if_pos h1, Except.ok.injEq] at hout
          exact Or.inl ⟨h1, hout.symm⟩
        · rw [if_neg h1] at hout
          exact Or.inr ⟨h1, hout⟩
      have hacc'_mem : ∀ x ∈ acc'.map QueueSong.songID,
          x ∈ acc.map QueueSong.songID ∨ x ∈ avail.map MockSong.id := by
        intro x hx
        rcases List.mem_cons.mp hx with heq | hx2
        · exact Or.inr (heq ▸ hsid)
        · exact Or.inl hx2
      rcases hrec with ⟨h1, rfl⟩ | ⟨h1, hout'⟩
      · refine ⟨?_, ?_, ?_⟩
        · simp only [List.length_reverse, hacc', List.length_cons]
          omega
        · intro x hx
          rw [List.map_reverse, List.mem_reverse] at hx
          exact hacc'_mem x hx
        · intro hav hacc hdisj
          rw [List.map_reverse, List.nodup_reverse, hacc']
          simp only [List.map_cons]
          refine List.nodup_cons.mpr ⟨?_, hacc⟩
          intro hmem
          exact hdisj s.id hmem hsid
      · obtain ⟨hlen, hmem, hnod⟩ := ih avail' p.2 acc' out hout'
        refine ⟨?_, ?_, ?_⟩
        · simp only [hacc', List.length_cons] at hlen
          omega
        · intro x hx
          rcases hmem x hx with h2 | h2
          · exact hacc'_mem x h2
          · exact Or.inr (hsub.mem h2)
        · intro hav hacc hdisj
          refine hnod (hsub.nodup hav) ?_ ?_
          · simp only [hacc', List.map_cons]
            refine List.nodup_cons.mpr ⟨?_, hacc⟩
            intro hmem2
            exact hdisj s.id hmem2 hsid
          · intro x hx
            simp only [hacc', List.map_cons] at hx
            rcases List.mem_cons.mp hx with heq | hx2
            · subst heq
              rw [havail']
              exact map_get_not_mem_eraseIdx_of_nodup MockSong.id avail idx hlt hav
            · intro hmem3
              exact hdisj x hx2 (hsub.mem hmem3)

/-- Claim C3: for every valid request (positive requested length), a
successful response of the queue route has at most `transitionLength` songs,
contains each song id at most once, and never contains the seed song. -/
theorem C3_queue_contract (currentSong : String) (traits : List TraitReq)
    (transitionLength : Int) (rng : ℕ → ℕ) (q : List QueueSong)
    (hpos : 0 < transitionLength)
    (hok : songQueuePOST currentSong traits transitionLength rng = .ok q) :
    (q.length : Int) ≤ transitionLength ∧
    (q.map QueueSong.songID).Nodup ∧
    currentSong ∉ q.map QueueSong.songID := by
  unfold songQueuePOST at hok
  by_cases hval : currentSong = "" ∨ transitionLength = 0
  · rw [if_pos hval] at hok
    exact absurd hok (by simp)
  · rw [if_neg hval] at hok
    obtain ⟨hlen, hmem, hnod⟩ := queueLoop_spec rng traits _ _ _ _ _ hok
    have havail : ((mockSongs.filter
        (fun s => s.id != currentSong)).map MockSong.id).Nodup := by
      have hsub := (List.filter_sublist
        (l := mockSongs) (p := fun s => s.id != currentSong)).map MockSong.id
      exact hsub.nodup (by decide)
    refine ⟨?_, ?_, ?_⟩
    · simp only [List.length_nil, Nat.add_zero] at hlen
      have h5 : ((min transitionLength 5).toNat : Int) ≤ transitionLength := by
        omega
      have : (q.length : Int) ≤ ((min transitionLength 5).toNat : Int) := by
        exact_mod_cast hlen
      omega
    · exact hnod havail (by simp) (by simp)
    · intro hmem2
      rcases hmem currentSong hmem2 with h | h
      · simp at h
      · obtain ⟨s, hs, hsid⟩ := List.mem_map.mp h
        have := (List.mem_filter.mp hs).2
        rw [hsid] at this
        simp at this

/-- Witness for C3 at a concrete request: seed `"song1"`, no traits, length 3,
random stream constantly 0. -/
theorem C3_witness :
    (0 : Int) < 3 ∧
    songQueuePOST "song1" [] 3 (fun _ => 0) =
      .ok [⟨"song2", []⟩, ⟨"song3", []⟩, ⟨"song4", []⟩] ∧
    (([⟨"song2", []⟩, ⟨"song3", []⟩, ⟨"song4", []⟩] :
        List QueueSong).length : Int) ≤ 3 := by
  have hok : songQueuePOST "song1" [] 3 (fun _ => 0) =
      .ok [⟨"song2", []⟩, ⟨"song3", []⟩, ⟨"song4", []⟩] := by decide
  exact ⟨by norm_num, hok,
    (C3_queue_contract "song1" [] 3 (fun _ => 0) _ (by norm_num) hok).1⟩

/-! ## Queue length at completion (C8) -/

theorem queueLoop_complete (rng : ℕ → ℕ) (traits : List TraitReq) :
    ∀ (n : ℕ) (avail : List MockSong) (k : ℕ) (acc out : List QueueSong),
      n < avail.length →
      queueLoop rng traits n avail k acc = .ok out →
      out.length = n + acc.length := by
  intro n
  induction n with
  | zero =>
    intro avail k acc out _ hout
    simp only [queueLoop, Except.ok.injEq] at hout
    subst hout
    simp
  | succ n ih =>
    intro avail k acc out hbig hout
    have h0 : ¬ avail.length = 0 := by omega
    have hlt : rng k % avail.length < avail.length :=
      Nat.mod_lt _ (Nat.pos_of_ne_zero h0)
    rw [show queueLoop rng traits (n + 1) avail k acc =
        (if (avail.eraseIdx (rng k % avail.length)).length = 0 then
          .ok ((⟨(avail.get ⟨rng k % avail.length, hlt⟩).id,
            (traitVals rng (avail.get ⟨rng k % avail.length, hlt⟩) traits
              (k + 1)).1⟩ : QueueSong) :: acc).reverse
         else queueLoop rng traits n (avail.eraseIdx (rng k % avail.length))
            (traitVals rng (avail.get ⟨rng k % avail.length, hlt⟩) traits
              (k + 1)).2
            (⟨(avail.get ⟨rng k % avail.length, hlt⟩).id,
              (traitVals rng (avail.get ⟨rng k % avail.length, hlt⟩) traits
                (k + 1)).1⟩ :: acc)) from by
      simp only [queueLoop, dif_neg h0]] at hout
    have herase : (avail.eraseIdx (rng k % avail.length)).length =
        avail.length - 1 := List.length_eraseIdx_of_lt hlt
    have h1 : ¬ (avail.eraseIdx (rng k % avail.length)).length = 0 := by
      omega
    rw [if_neg h1] at hout
    have := ih _ _ _ _ (by omega) hout
    simp only [List.length_cons] at this
    omega

/-- Counterexample to C8: requesting length 6 with seven candidate songs
available (no exhaustion, no error) returns only 5 songs — the route caps the
queue at `Math.min(transitionLength, 5)`. -/
theorem C8_counterexample :
    Except.map List.length (songQueuePOST "song1" [] 6 (fun _ => 0)) =
      .ok 5 ∧ (5 : ℕ) ≠ 6 := by
  exact ⟨by decide, by decide⟩

/-- Claim C8 amended: when the candidate pool is larger than
`min(transitionLength, 5)` (so the run completes without exhausting the pool),
the returned queue has exactly `min(transitionLength, 5)` songs — the
requested length is honored only up to the route's cap of 5. -/
theorem C8_done_length (currentSong : String) (traits : List TraitReq)
    (transitionLength : Int) (rng : ℕ → ℕ) (q : List QueueSong)
    (hok : songQueuePOST currentSong traits transitionLength rng = .ok q)
    (hbig : (min transitionLength 5).toNat <
      (mockSongs.filter (fun s => s.id != currentSong)).length) :
    q.length = (min transitionLength 5).toNat := by
  unfold songQueuePOST at hok
  by_cases hval : currentSong = "" ∨ transitionLength = 0
  · rw [if_pos hval] at hok
    exact absurd hok (by simp)
  · rw [if_neg hval] at hok
    have := queueLoop_complete rng traits _ _ _ _ _ hbig hok
    simpa using this

/-- Witness for the amended C8: length 3 requested, pool of 7, exactly 3
returned. -/
theorem C8_witness :
    songQueuePOST "song1" [] 3 (fun _ => 0) =
      .ok [⟨"song2", []⟩, ⟨"song3", []⟩, ⟨"song4", []⟩] ∧
    (min (3 : Int) 5).toNat <
      (mockSongs.filter (fun s => s.id != "song1")).length ∧
    ([⟨"song2", []⟩, ⟨"song3", []⟩, ⟨"song4", []⟩] :
      List QueueSong).length = (min (3 : Int) 5).toNat := by
  have hok : songQueuePOST "song1" [] 3 (fun _ => 0) =
      .ok [⟨"song2", []⟩, ⟨"song3", []⟩, ⟨"song4", []⟩] := by decide
  exact ⟨hok, by decide,
    C8_done_length "song1" [] 3 (fun _ => 0) _ hok (by decide)⟩

/-! ## Determinism relative to the random stream (C4) -/

theorem traitVals_snd_bounds (rng : ℕ → ℕ) (s : MockSong) :
    ∀ (ts : List TraitReq) (k : ℕ),
      k ≤ (traitVals rng s ts k).2 ∧
      (traitVals rng s ts k).2 ≤ k + ts.length := by
  intro ts
  induction ts with
  | nil => intro k; simp [traitVals]
  | cons t rest ih =>
    intro k
    cases hl : s.traits.lookup t.name with
    | none =>
      simp only [traitVals, hl]
      have := ih (k + 1)
      simp only [List.length_cons]
      omega
    | some v =>
      simp only [traitVals, hl]
      have := ih k
      simp only [List.length_cons]
      omega

theorem traitVals_congr (s : MockSong) (rng₁ rng₂ : ℕ → ℕ) :
    ∀ (ts : List TraitReq) (k : ℕ),
      (∀ j, k ≤ j → j < k + ts.length → rng₁ j = rng₂ j) →
      traitVals rng₁ s ts k = traitVals rng₂ s ts k := by
  intro ts
  induction ts with
  | nil => intro k _; rfl
  | cons t rest ih =>
    intro k hagree
    cases hl : s.traits.lookup t.name with
    | none =>
      simp only [traitVals, hl]
      rw [hagree k le_rfl (by simp only [List.length_cons]; omega),
        ih (k + 1) (fun j hj hlt => hagree j (by omega)
          (by simp only [List.length_cons]; omega))]
    | some v =>
      simp only [traitVals, hl]
      rw [ih k (fun j hj hlt => hagree j hj
        (by simp only [List.length_cons]; omega))]

theorem queueLoop_congr (traits : List TraitReq) (rng₁ rng₂ : ℕ → ℕ) :
    ∀ (n : ℕ) (avail : List MockSong) (k : ℕ) (acc : List QueueSong),
      (∀ j, k ≤ j → j < k + n * (1 + traits.length) → rng₁ j = rng₂ j) →
      queueLoop rng₁ traits n avail k acc =
        queueLoop rng₂ traits n avail k acc := by
  intro n
  induction n with
  | zero => intro avail k acc _; simp [queueLoop]
  | succ n ih =>
    intro avail k acc hagree
    by_cases h0 : avail.length = 0
    · simp only [queueLoop, dif_pos h0]
    · have hblock : 1 + traits.length ≤ (n + 1) * (1 + traits.length) :=
        Nat.le_mul_of_pos_left _ (Nat.succ_pos n)
      have hsplit : (n + 1) * (1 + traits.length) =
          (1 + traits.length) + n * (1 + traits.length) := by ring
      have hk : rng₁ k = rng₂ k := hagree k le_rfl (by omega)
      have hlt : rng₂ k % avail.length < avail.length :=
        Nat.mod_lt _ (Nat.pos_of_ne_zero h0)
      have htv : traitVals rng₁ (avail.get ⟨rng₂ k % avail.length, hlt⟩)
          traits (k + 1) =
          traitVals rng₂ (avail.get ⟨rng₂ k % avail.length, hlt⟩)
            traits (k + 1) := by
        apply traitVals_congr
        intro j hj hlt2
        exact hagree j (by omega) (by omega)
      have hsnd := traitVals_snd_bounds rng₂
        (avail.get ⟨rng₂ k % avail.length, hlt⟩) traits (k + 1)
      simp only [queueLoop, dif_neg h0]
      simp only [hk]
      rw [htv]
      by_cases h1 :
          (avail.eraseIdx (rng₂ k % avail.length)).length = 0
      · rw [if_pos h1, if_pos h1]
      · rw [if_neg h1, if_neg h1]
        apply ih
        intro j hj hlt2
        exact hagree j (by omega) (by omega)

/-- Counterexample to C4: two runs of the queue route with identical store,
seed, traits and length but different `Math.random` draws produce different
queues — the route is randomized, so determinism fails as stated. -/
theorem C4_counterexample :
    songQueuePOST "song1" [] 2 (fun _ => 0) ≠
      songQueuePOST "song1" [] 2 (fun _ => 1) := by
  decide

/-- Claim C4 amended: queue planning is deterministic only relative to the
random draws: two runs with identical seed, traits and length produce
identical queues whenever their random streams agree on the at most
`min(length,5) * (1 + #traits)` consumed positions. -/
theorem C4_deterministic_given_stream (currentSong : String)
    (traits : List TraitReq) (transitionLength : Int) (rng₁ rng₂ : ℕ → ℕ)
    (hagree : ∀ j, j < (min transitionLength 5).toNat * (1 + traits.length) →
      rng₁ j = rng₂ j) :
    songQueuePOST currentSong traits transitionLength rng₁ =
      songQueuePOST currentSong traits transitionLength rng₂ := by
  unfold songQueuePOST
  by_cases hval : currentSong = "" ∨ transitionLength = 0
  · rw [if_pos hval, if_pos hval]
  · rw [if_neg hval, if_neg hval]
    apply queueLoop_congr
    intro j _ hlt
    exact hagree j (by omega)

/-- Witness for the amended C4: a stream agreeing with the constant-zero
stream on the three consumed draws (but not elsewhere) yields the same
queue. -/
theorem C4_witness :
    (∀ j, j < (min (3 : Int) 5).toNat * (1 + ([] : List TraitReq).length) →
      (fun _ => 0 : ℕ → ℕ) j = (fun j => if j < 3 then 0 else 7) j) ∧
    songQueuePOST "song1" [] 3 (fun _ => 0) =
      songQueuePOST "song1" [] 3 (fun j => if j < 3 then 0 else 7) := by
  have hagree : ∀ j, j < (min (3 : Int) 5).toNat *
      (1 + ([] : List TraitReq).length) →
      (fun _ => 0 : ℕ → ℕ) j = (fun j => if j < 3 then 0 else 7) j := by
    decide
  exact ⟨hagree, C4_deterministic_given_stream "song1" [] 3 _ _ hagree⟩

/-! ## Trait clamping at the service boundary (C9) -/

/-- Counterexample to C9: an out-of-range trait value (2) produces an outcome
identical to the corresponding in-range request (value 1) — the value is
silently clamped and no warning outcome exists anywhere in the route's
response shape. -/
theorem C9_counterexample :
    songQueueProxyPOST "s" [⟨"energy", 2⟩] 3 =
      songQueueProxyPOST "s" [⟨"energy", 1⟩] 3 := by
  decide

/-- Claim C9 amended: each trait value is clamped to `[0,1]` before
forwarding, in-range values pass through unchanged, and the out-of-range case
is silent: the request is processed exactly as its clamped counterpart, with
no warning outcome. -/
theorem C9_clamp_silent (v : ℚ) :
    0 ≤ clampTrait v ∧ clampTrait v ≤ 1 ∧
    (0 ≤ v → v ≤ 1 → clampTrait v = v) ∧
    (∀ (cs nm : String) (tl : Int),
      songQueueProxyPOST cs [⟨nm, v⟩] tl =
        songQueueProxyPOST cs [⟨nm, clampTrait v⟩] tl) := by
  have hb0 : 0 ≤ clampTrait v := le_max_left _ _
  have hb1 : clampTrait v ≤ 1 := max_le (by norm_num) (min_le_left _ _)
  have hpass : ∀ w : ℚ, 0 ≤ w → w ≤ 1 → clampTrait w = w := by
    intro w h0 h1
    unfold clampTrait
    rw [min_eq_right h1, max_eq_right h0]
  refine ⟨hb0, hb1, hpass v, ?_⟩
  intro cs nm tl
  unfold songQueueProxyPOST
  by_cases hval : cs = "" ∨ tl = 0
  · rw [if_pos hval, if_pos hval]
  · rw [if_neg hval, if_neg hval]
    unfold buildBackendRequest
    simp only [List.map_cons, List.map_nil]
    rw [hpass (clampTrait v) hb0 hb1]

/-- Witness for the amended C9: the in-range value `1/2` passes through the
clamp unchanged. -/
theorem C9_witness :
    (0 : ℚ) ≤ 1 / 2 ∧ (1 / 2 : ℚ) ≤ 1 ∧ clampTrait (1 / 2) = 1 / 2 :=
  ⟨by norm_num, by norm_num,
    (C9_clamp_silent (1 / 2)).2.2.1 (by norm_num) (by norm_num)⟩

/-! ## Slider normalization in the player (C10) -/

/-- Claim C10: the player clamps slider input to `[1, 100]`; the normalization
`0.1 + (v - 1) * (0.9 / 99)` maps the clamped value into `[0.1, 1.0]` (so a
trait value below 0.1 is never sent) and is strictly increasing. -/
theorem C10_slider_normalization (v : Int) :
    1 ≤ handleTraitChange v ∧ handleTraitChange v ≤ 100 ∧
    1 / 10 ≤ normalizeTrait (handleTraitChange v : ℚ) ∧
    normalizeTrait (handleTraitChange v : ℚ) ≤ 1 ∧
    (∀ a b : ℚ, a < b → normalizeTrait a < normalizeTrait b) := by
  have h1 : 1 ≤ handleTraitChange v := le_max_left _ _
  have h2 : handleTraitChange v ≤ 100 := max_le (by norm_num) (min_le_left _ _)
  have hq1 : (1 : ℚ) ≤ (handleTraitChange v : ℚ) := by exact_mod_cast h1
  have hq2 : (handleTraitChange v : ℚ) ≤ 100 := by exact_mod_cast h2
  refine ⟨h1, h2, ?_, ?_, ?_⟩
  · unfold normalizeTrait
    nlinarith
  · unfold normalizeTrait
    nlinarith
  · intro a b hab
    unfold normalizeTrait
    nlinarith

/-- Witness for C10 at slider value 150 (clamped to 100) and at the strict
monotonicity hypothesis `1 < 2`. -/
theorem C10_witness :
    1 ≤ handleTraitChange 150 ∧ handleTraitChange 150 ≤ 100 ∧
    (1 : ℚ) < 2 ∧ normalizeTrait 1 < normalizeTrait 2 :=
  ⟨(C10_slider_normalization 150).1, (C10_slider_normalization 150).2.1,
    by norm_num,
    (C10_slider_normalization 150).2.2.2.2 1 2 (by norm_num)⟩

end VibeJockey
